import Mathlib

/-!
Verification of the Digital-Twin web frontend scene core
(`src/web/src/components/TwinScene.vue` and the application shell in
`src/unnamed/part_005`).

The JavaScript is shallowly embedded: JS numbers become exact rationals
(`ℚ`), JS strings become `String`, absent/`undefined` values become
`Option`, the `Map`/object tables keyed by ids become association lists
`List (String × _)`, and the one unbounded construct — the bounded
`while` loop of the ear-clipping triangulator — becomes structural
recursion on an explicit fuel equal to the JS guard bound `n * n`.
-/

namespace DigitalTwin

/-- A 2D point, as produced by `normalizeRing`'s
`[Number(p[0] || 0), Number(p[1] || 0)]` (well-formed two-component
arrays; the `Array.isArray(p) && p.length >= 2` filter is the identity on
this representation). -/
abbrev Point := ℚ × ℚ

/-- An index triple emitted by the triangulator. -/
abbrev Tri := ℕ × ℕ × ℕ

/-- The tolerance `1e-12` used by both the convexity test and the
point-in-triangle test in `triangulateEarClipping`. -/
def eps : ℚ := 1 / 10 ^ 12

/-- First half of `normalizeRing` (TwinScene.vue): if the ring has at
least two points and the last point equals the first, drop the trailing
closing point (`ring.slice(0, -1)`). -/
def dropClosing (ring : List Point) : List Point :=
  if 2 ≤ ring.length ∧ ring.head? = ring.getLast? then ring.dropLast else ring

/-- Second half of `normalizeRing`: keep a point only if it differs from
the last point kept (`!last || last[0] !== p[0] || last[1] !== p[1]`),
collapsing consecutive duplicates. -/
def dedupeFrom (last : Point) : List Point → List Point
  | [] => []
  | p :: rest => if p = last then dedupeFrom last rest else p :: dedupeFrom p rest

/-- `normalizeRing` from TwinScene.vue: drop a trailing repeated start
point, then remove consecutive duplicates. -/
def normalizeRing (pts : List Point) : List Point :=
  match dropClosing pts with
  | [] => []
  | p :: rest => p :: dedupeFrom p rest

/-- One term `x1 * y2 - x2 * y1` of the shoelace sum in `signedArea2D`. -/
def crossTerm (p q : Point) : ℚ := p.1 * q.2 - q.1 * p.2

/-- Sum of `crossTerm` over consecutive (non-wrapping) pairs. -/
def pathSum : List Point → ℚ
  | p :: q :: rest => crossTerm p q + pathSum (q :: rest)
  | _ => 0

/-- `signedArea2D` from TwinScene.vue: the loop adds
`x1 * y2 - x2 * y1` for each `i` with the successor taken modulo
`ring.length`, i.e. the consecutive-pair terms plus the closing term from
the last vertex back to the first, and halves the total. -/
def signedArea2D : List Point → ℚ
  | [] => 0
  | p :: rest => (pathSum (p :: rest) + crossTerm ((p :: rest).getLastD p) p) / 2

/-- The `cross` helper inside `triangulateEarClipping`:
`(a[0]-o[0])*(b[1]-o[1]) - (a[1]-o[1])*(b[0]-o[0])`. -/
def cross (o a b : Point) : ℚ :=
  (a.1 - o.1) * (b.2 - o.2) - (a.2 - o.2) * (b.1 - o.1)

/-- The `isPointInTriangle` helper inside `triangulateEarClipping`:
all three edge cross products at least `-eps`. -/
def isPointInTriangle (p a b c : Point) : Bool :=
  -eps ≤ cross a b p ∧ -eps ≤ cross b c p ∧ -eps ≤ cross c a p

/-- One candidate test of the ear-search `for` loop body at position
`pos` of the active `indices` list: the corner must be convex
(`cross > eps`) and no other remaining ring vertex may lie inside the
candidate triangle. Returns the emitted triangle on success. -/
def earAt (ring : List Point) (indices : List ℕ) (pos : ℕ) : Option Tri :=
  let len := indices.length
  let prev := indices.getD ((pos + len - 1) % len) 0
  let curr := indices.getD pos 0
  let next := indices.getD ((pos + 1) % len) 0
  let a := ring.getD prev ((0 : ℚ), (0 : ℚ))
  let b := ring.getD curr ((0 : ℚ), (0 : ℚ))
  let c := ring.getD next ((0 : ℚ), (0 : ℚ))
  if cross a b c ≤ eps then none
  else if indices.any fun t =>
      !(t = prev : Bool) && !(t = curr : Bool) && !(t = next : Bool) &&
        isPointInTriangle (ring.getD t ((0 : ℚ), (0 : ℚ))) a b c then none
  else some (prev, curr, next)

/-- First successful `earAt` over a list of candidate positions,
mirroring the `for (pos = 0; ...) { ...; break }` search. -/
def findEarIn (ring : List Point) (indices : List ℕ) : List ℕ → Option (ℕ × Tri)
  | [] => none
  | pos :: rest =>
    match earAt ring indices pos with
    | some t => some (pos, t)
    | none => findEarIn ring indices rest

/-- The ear search over all positions `0 ≤ pos < indices.length`. -/
def findEar (ring : List Point) (indices : List ℕ) : Option (ℕ × Tri) :=
  findEarIn ring indices (List.range indices.length)

/-- The `while (indices.length > 3 && guard < n * n)` loop of
`triangulateEarClipping`. The JS `guard` counter that is incremented at
the top of each iteration is modelled by the fuel counting down from
`n * n`; the third result component is the number of iterations executed,
i.e. the final value of `guard`. An iteration either emits the found ear
and removes its vertex (`indices.splice(pos, 1)`), or stops when no ear
was found (`if (!earFound) break`). -/
def earClipLoop (ring : List Point) : List ℕ → List Tri → ℕ → List Tri × List ℕ × ℕ
  | indices, tris, 0 => (tris, indices, 0)
  | indices, tris, fuel + 1 =>
    if 3 < indices.length then
      match findEar ring indices with
      | some (pos, tri) =>
        let r := earClipLoop ring (indices.eraseIdx pos) (tris ++ [tri]) fuel
        (r.1, r.2.1, r.2.2 + 1)
      | none => (tris, indices, 1)
    else (tris, indices, 0)

/-- Run the ear-clipping loop on an oriented ring, starting from
`indices = [0, ..., n-1]`, no triangles, and the guard bound `n * n`. -/
def earClipRun (ringCCW : List Point) : List Tri × List ℕ × ℕ :=
  earClipLoop ringCCW (List.range ringCCW.length) [] (ringCCW.length * ringCCW.length)

/-- The tail of `triangulateEarClipping` after orientation: run the loop
and, if exactly three indices remain, emit the final triangle. -/
def triangulateCCW (ringCCW : List Point) : List Tri :=
  let run := earClipRun ringCCW
  if run.2.1.length = 3 then
    run.1 ++ [(run.2.1.getD 0 0, run.2.1.getD 1 0, run.2.1.getD 2 0)]
  else run.1

/-- `triangulateEarClipping` from TwinScene.vue: normalize the ring,
return `[]` below three vertices, reverse a clockwise ring
(`signedArea2D(ring) < 0`) to counter-clockwise, ear-clip, and if the
ring was reversed remap the output indices through `i ↦ n - 1 - i` back
to the original normalized ordering. -/
def triangulateEarClipping (ringIn : List Point) : List Tri :=
  let ring := normalizeRing ringIn
  if ring.length < 3 then []
  else if signedArea2D ring < 0 then
    (triangulateCCW ring.reverse).map fun t =>
      (ring.length - 1 - t.1, ring.length - 1 - t.2.1, ring.length - 1 - t.2.2)
  else triangulateCCW ring

/-- The number of `while` iterations (the final JS `guard` value)
executed by `triangulateEarClipping` on the given input. -/
def earClipIterations (ringIn : List Point) : ℕ :=
  let ring := normalizeRing ringIn
  if ring.length < 3 then 0
  else if signedArea2D ring < 0 then (earClipRun ring.reverse).2.2
  else (earClipRun ring).2.2

/-- Well-formedness of an output index triple with respect to a ring of
`n` vertices: all three indices in range and pairwise distinct. -/
def goodTri (n : ℕ) (t : Tri) : Prop :=
  t.1 < n ∧ t.2.1 < n ∧ t.2.2 < n ∧ t.1 ≠ t.2.1 ∧ t.1 ≠ t.2.2 ∧ t.2.1 ≠ t.2.2

/-- The three ring points referenced by an index triple. -/
def triPoints (ring : List Point) (t : Tri) : Point × Point × Point :=
  (ring.getD t.1 ((0 : ℚ), (0 : ℚ)), ring.getD t.2.1 ((0 : ℚ), (0 : ℚ)),
    ring.getD t.2.2 ((0 : ℚ), (0 : ℚ)))

/-- Unsigned area of one triangle given by its three points. -/
def triAreaAbs (p : Point × Point × Point) : ℚ := |cross p.1 p.2.1 p.2.2| / 2

/-- The corner cross product of an index triple read in a ring. -/
def triCross (ring : List Point) (t : Tri) : ℚ :=
  cross (triPoints ring t).1 (triPoints ring t).2.1 (triPoints ring t).2.2

/-- Total unsigned area covered by the triangles of a triangulation,
reading each index triple in the given ring. -/
def coveredArea (ring : List Point) (tris : List Tri) : ℚ :=
  ((tris.map (triPoints ring)).map triAreaAbs).sum

/-- The ring handed to the triangulator by `rebuildRoomOverlays`: the
room polygon, normalized, translated by the horizontal world offset
(`[x - xOff, y - yOff]`). -/
def shiftRing (xOff yOff : ℚ) (polygon : List Point) : List Point :=
  (normalizeRing polygon).map fun p => (p.1 - xOff, p.2 - yOff)

/-- The data of one room overlay mesh built by `rebuildRoomOverlays`:
the flattened vertex positions (each ring point at height
`zElev = 0.02 - zOff`) and the flattened triangle index buffer. -/
structure Overlay where
  positions : List ℚ
  indices : List ℕ

/-- The body of the `for` loop of `rebuildRoomOverlays` for one
`[roomId, roomMeta]` entry: skip rooms whose polygon is not an array
(`none`), triangulate the shifted normalized ring, skip the room if no
triangles result, otherwise build the overlay tagged with the room id. -/
def buildRoomOverlay (xOff yOff zOff : ℚ) (entry : String × Option (List Point)) :
    Option (String × Overlay) :=
  match entry.2 with
  | none => none
  | some polygon =>
    let ring := shiftRing xOff yOff polygon
    let triangles := triangulateEarClipping ring
    if triangles.isEmpty then none
    else
      some (entry.1,
        { positions := ring.flatMap fun p => [p.1, p.2, 2 / 100 - zOff]
          indices := triangles.flatMap fun t => [t.1, t.2.1, t.2.2] })

/-- `rebuildRoomOverlays` from TwinScene.vue, applied to the
`Object.entries` of `meshData.metadata.rooms` (the prior overlay map was
just disposed, so the result is exactly the freshly built overlay
table keyed by room id). -/
def rebuildRoomOverlays (rooms : List (String × Option (List Point))) (xOff yOff zOff : ℚ) :
    List (String × Overlay) :=
  rooms.filterMap (buildRoomOverlay xOff yOff zOff)

/-- A sensor record as held in the app state (`part_005`) and consumed
by TwinScene.vue. A missing/falsy JS `id` is modelled by `""`; fields
that may be `undefined` are `Option`s. -/
structure Sensor where
  id : String
  type : Option String
  status : Option String
  is_alert : Bool
  location : Option (List ℚ)
  room_id : Option String
  room_name : Option String

/-- A `sensor_update` socket event (`part_005`): every field except
`sensor_id` may be absent. `is_alert` is an `Option Bool` because the
payload may omit it, in which case `Boolean(update.is_alert)` coerces it
to `false`. -/
structure SensorUpdate where
  sensor_id : String
  type : Option String
  new_status : Option String
  is_alert : Option Bool
  location : Option (List ℚ)
  room_id : Option String
  room_name : Option String

/-- The JS `??` operator on possibly-absent values: the left operand if
present, otherwise the right. -/
def jsOr {α : Type} : Option α → Option α → Option α
  | some a, _ => some a
  | none, b => b

/-- Key lookup in an id-keyed association list (JS `table[id]` /
`Map.get`). -/
def getKey {α : Type} (k : String) : List (String × α) → Option α
  | [] => none
  | e :: rest => if e.1 = k then some e.2 else getKey k rest

/-- Key insertion/replacement in an id-keyed association list
(JS `table[id] = v` / `Map.set`). -/
def setKey {α : Type} (k : String) (v : α) : List (String × α) → List (String × α)
  | [] => [(k, v)]
  | e :: rest => if e.1 = k then (k, v) :: rest else e :: setKey k v rest

/-- Key removal (JS `Map.delete`). -/
def delKey {α : Type} (k : String) (m : List (String × α)) : List (String × α) :=
  m.filter fun e => e.1 ≠ k

/-- JS `String.prototype.includes` on explicit character lists: does the
needle occur as a contiguous run of the haystack? -/
def containsSeq : List Char → List Char → Bool
  | [], needle => needle.isEmpty
  | c :: t, needle => needle.isPrefixOf (c :: t) || containsSeq t needle

/-- JS `hay.includes(needle)` for strings. -/
def jsIncludes (hay needle : String) : Bool := containsSeq hay.data needle.data

/-- JS `toLowerCase` on the character content of a string (each
character mapped through `Char.toLower`). -/
def jsToLower (s : String) : String := String.mk (s.data.map Char.toLower)

/-- `String(sensor?.type || '').toLowerCase()` in `sensorColor`. -/
def typeLower (s : Sensor) : String := jsToLower (s.type.getD (String.mk []))

/-- The keyword `pir` tested first by `sensorColor`. -/
def kwPir : String := "pir"

/-- The keyword `door`. -/
def kwDoor : String := "door"

/-- The keyword `smoke`. -/
def kwSmoke : String := "smoke"

/-- The keyword `temp`. -/
def kwTemp : String := "temp"

/-- `sensorColor` from TwinScene.vue: alert sensors are always
`0xff4d4d`; otherwise the lowercased type string is matched, in order,
against the substrings `pir`, `door`, `smoke`, `temp`, with `0x22c55e`
as the fallback. -/
def sensorColor (s : Sensor) : ℕ :=
  if s.is_alert then 0xff4d4d
  else if jsIncludes (typeLower s) kwPir then 0x60a5fa
  else if jsIncludes (typeLower s) kwDoor then 0xfbbf24
  else if jsIncludes (typeLower s) kwSmoke then 0xa78bfa
  else if jsIncludes (typeLower s) kwTemp then 0x22d3ee
  else 0x22c55e

/-- The `Array.isArray(location) && location.length >= 2` test in
`updateSensors`. -/
def locationValid (s : Sensor) : Bool :=
  match s.location with
  | some l => 2 ≤ l.length
  | none => false

/-- One sensor marker: its rendered position and material color. -/
structure Marker where
  pos : ℚ × ℚ × ℚ
  color : ℕ

/-- Marker placement and coloring in `updateSensors`: with
`lift = 0.08`, position `[x - xOff, z - zOff + lift, y - yOff]` (missing
components default to 0) and the color from `sensorColor`. -/
def markerFor (xOff yOff zOff : ℚ) (s : Sensor) : Marker :=
  let loc := s.location.getD []
  { pos := (loc.getD 0 0 - xOff, loc.getD 2 0 - zOff + 8 / 100, loc.getD 1 0 - yOff)
    color := sensorColor s }

/-- The per-sensor body of the first `for` loop of `updateSensors`:
skip falsy ids, skip sensors without a usable (length ≥ 2) location
array, and otherwise create-or-update the marker keyed by the sensor id
with fresh position and color. -/
def syncSensor (xOff yOff zOff : ℚ) (m : List (String × Marker)) (s : Sensor) :
    List (String × Marker) :=
  if s.id = String.mk [] then m
  else if locationValid s then setKey s.id (markerFor xOff yOff zOff s) m
  else m

/-- The `keep` set accumulated by `updateSensors`: every truthy sensor
id in the list, added before the location check. -/
def keepIds (sensors : List Sensor) : List String :=
  (sensors.filter fun s => s.id ≠ String.mk []).map fun s => s.id

/-- `updateSensors` from TwinScene.vue acting on the marker table: when
the sensors-visibility flag is false the function returns before
touching any marker; otherwise every sensor is synced in order and then
every marker whose id is not in `keep` is removed (set-difference
cleanup). -/
def updateSensors (markers : List (String × Marker)) (sensors : List Sensor)
    (visible : Bool) (xOff yOff zOff : ℚ) : List (String × Marker) :=
  if visible then
    let synced := sensors.foldl (syncSensor xOff yOff zOff) markers
    synced.filter fun e => decide (e.1 ∈ keepIds sensors)
  else markers

/-- The per-sensor body of `recomputeAlertRooms`: if both `is_alert` and
`room_id` are truthy (present and nonempty), add `String(s.room_id)` to
the set (duplicates ignored, insertion order kept). -/
def alertStep (acc : List String) (s : Sensor) : List String :=
  match s.room_id with
  | some r =>
    if s.is_alert = true ∧ r ≠ String.mk [] then
      if r ∈ acc then acc else acc ++ [r]
    else acc
  | none => acc

/-- `recomputeAlertRooms` from TwinScene.vue: collect
`String(s.room_id)` over all sensors with truthy `is_alert` and truthy
`room_id`. -/
def recomputeAlertRooms (sensors : List Sensor) : List String :=
  sensors.foldl alertStep []

/-- `applySensorUpdate` from `part_005`: ignore events without a truthy
`sensor_id`; otherwise take the existing record (or a fresh `{ id }`)
and overwrite it with the merge in which `type`, `status`, `location`,
`room_id` and `room_name` fall back to the existing values via `??`,
while `is_alert` is set to `Boolean(update.is_alert)`. -/
def applySensorUpdate (sensors : List (String × Sensor)) (u : SensorUpdate) :
    List (String × Sensor) :=
  if u.sensor_id = String.mk [] then sensors
  else
    let existing := (getKey u.sensor_id sensors).getD
      { id := u.sensor_id, type := none, status := none, is_alert := false,
        location := none, room_id := none, room_name := none }
    setKey u.sensor_id
      { id := u.sensor_id
        type := jsOr u.type existing.type
        status := jsOr u.new_status existing.status
        is_alert := u.is_alert.getD false
        location := jsOr u.location existing.location
        room_id := jsOr u.room_id existing.room_id
        room_name := jsOr u.room_name existing.room_name }
      sensors

/-- The material state of one room overlay mesh that
`updateRoomOverlayAnimation` mutates. -/
structure OverlayMat where
  color : ℕ
  opacity : ℚ

/-- The per-overlay body of `updateRoomOverlayAnimation` for one frame,
given the sampled pulse value `(sin(t * 7) + 1) / 2`: alert rooms get
the warning color and opacity `0.18 + pulse * 0.45` (alert wins even
for the selected room), the selected room gets a steady
`0x60a5fa` at opacity `0.22`, every other overlay is driven to opacity
`0` with its color untouched. -/
def animateOverlay (alertRooms : List String) (selected : String) (pulse : ℚ)
    (roomId : String) (m : OverlayMat) : OverlayMat :=
  if alertRooms.contains roomId then
    { color := 0xff4d4d, opacity := 18 / 100 + pulse * (45 / 100) }
  else if selected ≠ String.mk [] ∧ roomId = selected then
    { color := 0x60a5fa, opacity := 22 / 100 }
  else
    { color := m.color, opacity := 0 }

/-- `updateRoomOverlayAnimation` from TwinScene.vue over the resident
overlay table: every overlay material is updated in place and no overlay
is added or removed. -/
def updateRoomOverlayAnimation (overlays : List (String × OverlayMat))
    (alertRooms : List String) (selected : String) (pulse : ℚ) :
    List (String × OverlayMat) :=
  overlays.map fun e => (e.1, animateOverlay alertRooms selected pulse e.1 e.2)

/-- The pulse sample `(Math.sin(t * 7.0) + 1) / 2` computed by
`updateRoomOverlayAnimation` from the clock time `t` in seconds. -/
noncomputable def pulseAt (t : ℝ) : ℝ := (Real.sin (t * 7) + 1) / 2

/-- The alert-overlay opacity `0.18 + pulse * 0.45` as a function of
time. -/
noncomputable def alertOpacityAt (t : ℝ) : ℝ := 18 / 100 + pulseAt t * (45 / 100)

/-- A 3D vector with exact coordinates. -/
structure Vec3Q where
  x : ℚ
  y : ℚ
  z : ℚ

/-- A finite axis-aligned bounding box. The non-finite box that
`THREE.Box3().setFromObject` yields for an empty scene (min `+∞`,
max `-∞`) is modelled as `none` at the use site. -/
structure BoxQ where
  minp : Vec3Q
  maxp : Vec3Q

/-- The camera state touched by `fitCameraToModel`: position, orbit
target, near and far planes. -/
structure CameraState where
  pos : Vec3Q
  target : Vec3Q
  near : ℚ
  far : ℚ

/-- `box.getSize`: componentwise `max - min`. -/
def boxSize (b : BoxQ) : Vec3Q :=
  { x := b.maxp.x - b.minp.x, y := b.maxp.y - b.minp.y, z := b.maxp.z - b.minp.z }

/-- `box.getCenter`: componentwise midpoint. -/
def boxCenter (b : BoxQ) : Vec3Q :=
  { x := (b.minp.x + b.maxp.x) / 2, y := (b.minp.y + b.maxp.y) / 2,
    z := (b.minp.z + b.maxp.z) / 2 }

/-- `maxDim = Math.max(size.x, size.y, size.z)`. -/
def boxMaxDim (b : BoxQ) : ℚ :=
  max (boxSize b).x (max (boxSize b).y (boxSize b).z)

/-- `dist = Math.max(2.5, maxDim * 1.5)`. -/
def boxDist (b : BoxQ) : ℚ := max (5 / 2) (boxMaxDim b * (3 / 2))

/-- `fitCameraToModel` from TwinScene.vue: with non-finite bounds
(`none`) it returns early leaving the camera untouched; otherwise it
sets the orbit target to the box center, the camera position to
`center + (dist, dist * 0.7, dist)`, `near = 0.01` and
`far = Math.max(200, dist * 10)`. -/
def fitCameraToModel (box : Option BoxQ) (cam : CameraState) : CameraState :=
  match box with
  | none => cam
  | some b =>
    let center := boxCenter b
    let dist := boxDist b
    { pos := { x := center.x + dist, y := center.y + dist * (7 / 10), z := center.z + dist }
      target := center
      near := 1 / 100
      far := max 200 (dist * 10) }

/-- Squared euclidean distance between two vectors. -/
def sqDist (u v : Vec3Q) : ℚ :=
  (u.x - v.x) ^ 2 + (u.y - v.y) ^ 2 + (u.z - v.z) ^ 2

/-- A counter-clockwise unit right triangle used as a concrete witness
input. -/
def triRing : List Point := [(0, 0), (1, 0), (0, 1)]

/-- The clockwise quad `[[0,0],[0,3],[4,3],[4,0]]` used as a concrete
witness input for the winding-reversal claim. -/
def cwQuad : List Point := [(0, 0), (0, 3), (4, 3), (4, 0)]

/-- A clockwise triangle followed by a repeated closing point, twice:
`normalizeRing` keeps a trailing copy of the start point, and its
reversal normalizes to a plain 3-ring, so the two windings triangulate
differently. -/
def cw5 : List Point := [(0, 0), (0, 1), (1, 0), (0, 0), (0, 0)]

/-- The counter-clockwise orientation of `normalizeRing cw5` (its
reversal), on which the ear-clipping loop finds no ear. -/
def cw5ccw : List Point := [(0, 0), (1, 0), (0, 1), (0, 0)]

/-- Example sensor `{id: 's1', room_id: 'r1', is_alert: true}` from the
spec's alert-room computation property. -/
def sensorS1 : Sensor :=
  { id := "s1", type := none, status := none, is_alert := true,
    location := none, room_id := some ("r1"), room_name := none }

/-- Example sensor `{id: 's2', room_id: 'r2', is_alert: false}`. -/
def sensorS2 : Sensor :=
  { id := "s2", type := none, status := none, is_alert := false,
    location := none, room_id := some ("r2"), room_name := none }

/-- A sensor with a usable location, for marker-sync witnesses. -/
def sensorLoc : Sensor :=
  { id := "s1", type := none, status := none, is_alert := false,
    location := some [1, 2, 0], room_id := some ("r1"), room_name := none }

/-- The same sensor after its location disappeared from an update. -/
def sensorNoLoc : Sensor :=
  { id := "s1", type := none, status := none, is_alert := false,
    location := none, room_id := some ("r1"), room_name := none }

/-- A non-alert sensor whose type string is literally `motion`. -/
def sensorMotion : Sensor :=
  { id := "m1", type := some ("motion"), status := none, is_alert := false,
    location := none, room_id := none, room_name := none }

/-- A non-alert sensor with no type at all (matches no keyword). -/
def sensorBlank : Sensor :=
  { id := "b1", type := none, status := none, is_alert := false,
    location := none, room_id := none, room_name := none }

/-- A fully-populated stored sensor record, for the update-merge
claim. -/
def sensorFull : Sensor :=
  { id := "s1", type := some ("pir"), status := some ("ok"), is_alert := true,
    location := some [1, 2, 0], room_id := some ("r1"), room_name := some ("Living") }

/-- A sensor-update event carrying only `sensor_id` (every optional
field, including `is_alert`, absent). -/
def updateEmpty : SensorUpdate :=
  { sensor_id := "s1", type := none, new_status := none, is_alert := none,
    location := none, room_id := none, room_name := none }

/-- A single-room metadata table whose polygon is the unit triangle. -/
def roomsEx : List (String × Option (List Point)) := [("roomA", some triRing)]

/-- A marker table holding one marker for sensor `s1`. -/
def markersS1 : List (String × Marker) :=
  [("s1", { pos := (1, 8 / 100, 2), color := 0x22c55e })]

/-- An overlay material fixture. -/
def overlayMat0 : OverlayMat := { color := 0, opacity := 0 }

/-- The degenerate all-zero bounding box. -/
def boxZero : BoxQ := { minp := { x := 0, y := 0, z := 0 }, maxp := { x := 0, y := 0, z := 0 } }

/-- A camera fixture. -/
def camZero : CameraState :=
  { pos := { x := 0, y := 0, z := 0 }, target := { x := 0, y := 0, z := 0 },
    near := 1 / 100, far := 200 }

/-! ## Helper lemmas -/

theorem getKey_setKey_self {α : Type} (k : String) (v : α) :
    ∀ m : List (String × α), getKey k (setKey k v m) = some v
  | [] => by simp [setKey, getKey]
  | e :: rest => by
    by_cases h : e.1 = k
    · simp [setKey, getKey, h]
    · simp [setKey, getKey, h, getKey_setKey_self k v rest]

theorem exists_mem_setKey {α : Type} (k : String) (v : α) (id : String)
    (m : List (String × α)) :
    (∃ w, (id, w) ∈ setKey k v m) ↔ id = k ∨ ∃ w, (id, w) ∈ m := by
  induction m with
  | nil => simp [setKey]
  | cons e rest ih =>
    by_cases h : e.1 = k
    · simp only [setKey, if_pos h]
      constructor
      · rintro ⟨w, hw⟩
        rcases List.mem_cons.mp hw with hw | hw
        · exact Or.inl (congrArg Prod.fst hw)
        · exact Or.inr ⟨w, List.mem_cons_of_mem _ hw⟩
      · rintro (rfl | ⟨w, hw⟩)
        · exact ⟨v, List.mem_cons_self _ _⟩
        · rcases List.mem_cons.mp hw with hw | hw
          · have hid : id = k := (congrArg Prod.fst hw).trans h
            exact ⟨v, hid ▸ List.mem_cons_self _ _⟩
          · exact ⟨w, List.mem_cons_of_mem _ hw⟩
    · simp only [setKey, if_neg h]
      constructor
      · rintro ⟨w, hw⟩
        rcases List.mem_cons.mp hw with hw | hw
        · exact Or.inr ⟨w, List.mem_cons.mpr (Or.inl hw)⟩
        · rcases ih.mp ⟨w, hw⟩ with h2 | ⟨w', hw'⟩
          · exact Or.inl h2
          · exact Or.inr ⟨w', List.mem_cons_of_mem _ hw'⟩
      · rintro (rfl | ⟨w, hw⟩)
        · obtain ⟨w', hw'⟩ := ih.mpr (Or.inl rfl)
          exact ⟨w', List.mem_cons_of_mem _ hw'⟩
        · rcases List.mem_cons.mp hw with hw | hw
          · exact ⟨w, List.mem_cons.mpr (Or.inl hw)⟩
          · obtain ⟨w', hw'⟩ := ih.mpr (Or.inr ⟨w, hw⟩)
            exact ⟨w', List.mem_cons_of_mem _ hw'⟩

theorem mem_alertStep (acc : List String) (s : Sensor) (rid : String) :
    rid ∈ alertStep acc s ↔
      rid ∈ acc ∨ (s.is_alert = true ∧ s.room_id = some rid ∧ rid ≠ String.mk []) := by
  rcases hro : s.room_id with _ | r
  · simp [alertStep, hro]
  · by_cases hc : s.is_alert = true ∧ r ≠ String.mk []
    · by_cases hmem : r ∈ acc
      · simp only [alertStep, hro, if_pos hc, if_pos hmem]
        constructor
        · exact Or.inl
        · rintro (h | ⟨_, hr, hne⟩)
          · exact h
          · cases hr
            exact hmem
      · simp only [alertStep, hro, if_pos hc, if_neg hmem]
        rw [List.mem_append]
        constructor
        · rintro (h | h)
          · exact Or.inl h
          · have hrr : rid = r := by simpa using h
            subst hrr
            exact Or.inr ⟨hc.1, rfl, hc.2⟩
        · rintro (h | ⟨_, hr, _⟩)
          · exact Or.inl h
          · cases hr
            exact Or.inr (by simp)
    · simp only [alertStep, hro, if_neg hc]
      constructor
      · exact Or.inl
      · rintro (h | ⟨hal, hr, hne⟩)
        · exact h
        · cases hr
          exact absurd ⟨hal, hne⟩ hc

theorem mem_alertRooms_foldl (sensors : List Sensor) :
    ∀ (acc : List String) (rid : String),
      rid ∈ sensors.foldl alertStep acc ↔
        rid ∈ acc ∨ ∃ s ∈ sensors, s.is_alert = true ∧ s.room_id = some rid ∧
          rid ≠ String.mk [] := by
  induction sensors with
  | nil => simp
  | cons s rest ih =>
    intro acc rid
    rw [List.foldl_cons, ih, mem_alertStep]
    constructor
    · rintro ((h | hs) | ⟨s', hs', h'⟩)
      · exact Or.inl h
      · exact Or.inr ⟨s, List.mem_cons_self _ _, hs⟩
      · exact Or.inr ⟨s', List.mem_cons_of_mem _ hs', h'⟩
    · rintro (h | ⟨s', hs', h'⟩)
      · exact Or.inl (Or.inl h)
      · rcases List.mem_cons.mp hs' with rfl | hs'
        · exact Or.inl (Or.inr h')
        · exact Or.inr ⟨s', hs', h'⟩

/-! ## Claim theorems -/

theorem cross_self_left (a b : Point) : cross a a b = 0 := by
  unfold cross; ring

theorem cross_self_right (o a : Point) : cross o a a = 0 := by
  unfold cross; ring

theorem cross_self_outer (o a : Point) : cross o a o = 0 := by
  unfold cross; ring

theorem cross_ne_zero_distinct {o a b : Point} (h : cross o a b ≠ 0) :
    o ≠ a ∧ o ≠ b ∧ a ≠ b := by
  refine ⟨?_, ?_, ?_⟩ <;> rintro rfl
  · exact h (cross_self_left _ _)
  · exact h (cross_self_outer _ _)
  · exact h (cross_self_right _ _)

theorem getD_eq_getElem {α : Type} (l : List α) (d : α) {i : ℕ} (h : i < l.length) :
    l.getD i d = l[i] := by
  rw [List.getD_eq_getElem?_getD, List.getElem?_eq_getElem h]
  rfl

theorem getD_mem {α : Type} (l : List α) (d : α) {i : ℕ} (h : i < l.length) :
    l.getD i d ∈ l := by
  rw [getD_eq_getElem l d h]
  exact List.getElem_mem h

theorem prevPos_eq {pos len : ℕ} (h : pos < len) :
    (pos + len - 1) % len = if pos = 0 then len - 1 else pos - 1 := by
  have hl : 0 < len := lt_of_le_of_lt (Nat.zero_le pos) h
  by_cases h0 : pos = 0
  · rw [if_pos h0, h0]
    have he : 0 + len - 1 = len - 1 := by omega
    rw [he]
    exact Nat.mod_eq_of_lt (by omega)
  · rw [if_neg h0]
    have he : pos + len - 1 = len + (pos - 1) := by omega
    rw [he, Nat.add_mod_left]
    exact Nat.mod_eq_of_lt (by omega)

theorem nextPos_eq {pos len : ℕ} (h : pos < len) :
    (pos + 1) % len = if pos + 1 = len then 0 else pos + 1 := by
  by_cases he : pos + 1 = len
  · rw [if_pos he, he, Nat.mod_self]
  · rw [if_neg he]
    exact Nat.mod_eq_of_lt (by omega)

theorem earAt_some_eq {ring : List Point} {indices : List ℕ} {pos : ℕ} {t : Tri}
    (h : earAt ring indices pos = some t) :
    t = (indices.getD ((pos + indices.length - 1) % indices.length) 0,
          indices.getD pos 0, indices.getD ((pos + 1) % indices.length) 0)
      ∧ eps < triCross ring t := by
  simp only [earAt] at h
  split_ifs at h with h1 h2
  all_goals first
    | exact Option.noConfusion h
    | (injection h with h'
       subst h'
       push_neg at h1
       exact ⟨rfl, h1⟩)

theorem earAt_mem {ring : List Point} {indices : List ℕ} {pos : ℕ} {t : Tri}
    (hpos : pos < indices.length) (h : earAt ring indices pos = some t) :
    t.1 ∈ indices ∧ t.2.1 ∈ indices ∧ t.2.2 ∈ indices := by
  have hl : 0 < indices.length := lt_of_le_of_lt (Nat.zero_le pos) hpos
  obtain ⟨ht, _⟩ := earAt_some_eq h
  subst ht
  exact ⟨getD_mem _ _ (Nat.mod_lt _ hl), getD_mem _ _ hpos, getD_mem _ _ (Nat.mod_lt _ hl)⟩

theorem earAt_distinct {ring : List Point} {indices : List ℕ} {pos : ℕ} {t : Tri}
    (hpos : pos < indices.length) (hnd : indices.Nodup) (hlen : 3 < indices.length)
    (h : earAt ring indices pos = some t) :
    t.1 ≠ t.2.1 ∧ t.1 ≠ t.2.2 ∧ t.2.1 ≠ t.2.2 := by
  obtain ⟨ht, _⟩ := earAt_some_eq h
  subst ht
  have hl : 0 < indices.length := by omega
  have hP : (pos + indices.length - 1) % indices.length < indices.length := Nat.mod_lt _ hl
  have hN : (pos + 1) % indices.length < indices.length := Nat.mod_lt _ hl
  have hPv := prevPos_eq hpos
  have hNv := nextPos_eq hpos
  have hPC : (pos + indices.length - 1) % indices.length ≠ pos := by
    rw [hPv]; split_ifs with h0 <;> omega
  have hPN : (pos + indices.length - 1) % indices.length ≠ (pos + 1) % indices.length := by
    rw [hPv, hNv]; split_ifs with h0 h1 h1 <;> omega
  have hCN : pos ≠ (pos + 1) % indices.length := by
    rw [hNv]; split_ifs with h0 <;> omega
  rw [getD_eq_getElem _ _ hP, getD_eq_getElem _ _ hpos, getD_eq_getElem _ _ hN]
  refine ⟨fun he => hPC ?_, fun he => hPN ?_, fun he => hCN ?_⟩ <;>
    exact (List.Nodup.getElem_inj_iff hnd).mp he

theorem findEarIn_some {ring : List Point} {indices : List ℕ} :
    ∀ {cand : List ℕ} {pos : ℕ} {t : Tri},
      findEarIn ring indices cand = some (pos, t) →
        pos ∈ cand ∧ earAt ring indices pos = some t := by
  intro cand
  induction cand with
  | nil => intro pos t h; simp [findEarIn] at h
  | cons c rest ih =>
    intro pos t h
    rw [findEarIn] at h
    rcases he : earAt ring indices c with _ | t'
    · rw [he] at h
      obtain ⟨h1, h2⟩ := ih h
      exact ⟨List.mem_cons_of_mem _ h1, h2⟩
    · rw [he] at h
      injection h with h'
      have hc : c = pos := congrArg Prod.fst h'
      have htt : t' = t := congrArg Prod.snd h'
      subst hc
      subst htt
      exact ⟨List.mem_cons_self _ _, he⟩

theorem findEar_some {ring : List Point} {indices : List ℕ} {pos : ℕ} {t : Tri}
    (h : findEar ring indices = some (pos, t)) :
    pos < indices.length ∧ earAt ring indices pos = some t := by
  obtain ⟨h1, h2⟩ := findEarIn_some h
  exact ⟨List.mem_range.mp h1, h2⟩

theorem earClipLoop_spec (ring : List Point) (n : ℕ) :
    ∀ (fuel : ℕ) (indices : List ℕ) (tris : List Tri),
      indices.Nodup → (∀ i ∈ indices, i < n) →
      (earClipLoop ring indices tris fuel).2.1.Sublist indices
      ∧ (earClipLoop ring indices tris fuel).1.length +
          (earClipLoop ring indices tris fuel).2.1.length = tris.length + indices.length
      ∧ (∀ t ∈ (earClipLoop ring indices tris fuel).1, t ∈ tris ∨
          (goodTri n t ∧ eps < triCross ring t))
      ∧ (3 ≤ indices.length → 3 ≤ (earClipLoop ring indices tris fuel).2.1.length)
      ∧ (earClipLoop ring indices tris fuel).2.2 ≤ fuel
      ∧ ((earClipLoop ring indices tris fuel).1 = tris →
          (earClipLoop ring indices tris fuel).2.1 = indices)
      ∧ (indices.length ≤ 3 → earClipLoop ring indices tris fuel = (tris, indices, 0)) := by
  intro fuel
  induction fuel with
  | zero =>
    intro indices tris hnd hbd
    have hred : earClipLoop ring indices tris 0 = (tris, indices, 0) := rfl
    rw [hred]
    exact ⟨List.Sublist.refl _, rfl, fun t ht => Or.inl ht, fun h => h,
      Nat.le_refl _, fun _ => rfl, fun _ => rfl⟩
  | succ fuel ih =>
    intro indices tris hnd hbd
    by_cases h3 : 3 < indices.length
    · rcases hfe : findEar ring indices with _ | ⟨pos, tri⟩
      · have hred : earClipLoop ring indices tris (fuel + 1) = (tris, indices, 1) := by
          rw [earClipLoop, if_pos h3, hfe]
        rw [hred]
        exact ⟨List.Sublist.refl _, rfl, fun t ht => Or.inl ht, fun h => h,
          Nat.succ_le_succ (Nat.zero_le _), fun _ => rfl, fun hle => absurd hle (by omega)⟩
      · obtain ⟨hposlt, hearat⟩ := findEar_some hfe
        have hmem := earAt_mem hposlt hearat
        have hdis := earAt_distinct hposlt hnd h3 hearat
        have hcross := (earAt_some_eq hearat).2
        have hsub' : (indices.eraseIdx pos).Sublist indices := List.eraseIdx_sublist _ _
        have hnd' : (indices.eraseIdx pos).Nodup := hsub'.nodup hnd
        have hbd' : ∀ i ∈ indices.eraseIdx pos, i < n := fun i hi => hbd i (hsub'.subset hi)
        have hlen' : (indices.eraseIdx pos).length = indices.length - 1 :=
          List.length_eraseIdx_of_lt hposlt
        obtain ⟨ihA, ihB, ihC, ihD, ihE, ihF, ihG⟩ :=
          ih (indices.eraseIdx pos) (tris ++ [tri]) hnd' hbd'
        have hred : earClipLoop ring indices tris (fuel + 1) =
            ((earClipLoop ring (indices.eraseIdx pos) (tris ++ [tri]) fuel).1,
              (earClipLoop ring (indices.eraseIdx pos) (tris ++ [tri]) fuel).2.1,
              (earClipLoop ring (indices.eraseIdx pos) (tris ++ [tri]) fuel).2.2 + 1) := by
          rw [earClipLoop, if_pos h3, hfe]
        rw [hred]
        dsimp only
        refine ⟨ihA.trans hsub', ?_, ?_, ?_, ?_, ?_, ?_⟩
        · simp only [List.length_append, List.length_singleton] at ihB
          omega
        · intro t ht
          rcases ihC t ht with hin | hgood
          · rcases List.mem_append.mp hin with hin | hin
            · exact Or.inl hin
            · have : t = tri := by simpa using hin
              subst this
              refine Or.inr ⟨⟨hbd _ hmem.1, hbd _ hmem.2.1, hbd _ hmem.2.2,
                hdis.1, hdis.2.1, hdis.2.2⟩, hcross⟩
          · exact Or.inr hgood
        · intro _
          exact ihD (by omega)
        · exact Nat.succ_le_succ ihE
        · intro heq
          exfalso
          have h1 : (earClipLoop ring (indices.eraseIdx pos) (tris ++ [tri]) fuel).1.length
              = tris.length := by rw [heq]
          have h2 : (earClipLoop ring (indices.eraseIdx pos) (tris ++ [tri]) fuel).2.1.length
              ≤ indices.length - 1 := by
            have := ihA.length_le
            omega
          simp only [List.length_append, List.length_singleton] at ihB
          omega
        · intro hle
          exact absurd hle (by omega)
    · have hred : earClipLoop ring indices tris (fuel + 1) = (tris, indices, 0) := by
        rw [earClipLoop, if_neg h3]
      rw [hred]
      exact ⟨List.Sublist.refl _, rfl, fun t ht => Or.inl ht, fun h => h,
        Nat.zero_le _, fun _ => rfl, fun _ => rfl⟩

theorem crossTerm_anti (p q : Point) : crossTerm q p = -crossTerm p q := by
  unfold crossTerm; ring

theorem crossTerm_self (p : Point) : crossTerm p p = 0 := by
  unfold crossTerm; ring

theorem pathSum_append_last (l : List Point) (p x : Point) :
    pathSum ((p :: l) ++ [x]) = pathSum (p :: l) + crossTerm ((p :: l).getLastD p) x := by
  induction l generalizing p with
  | nil => simp [pathSum]
  | cons q rest ih =>
    show crossTerm p q + pathSum ((q :: rest) ++ [x]) =
      pathSum (p :: q :: rest) + crossTerm ((p :: q :: rest).getLastD p) x
    rw [ih q]
    simp only [List.getLastD_cons]
    have h3 : pathSum (p :: q :: rest) = crossTerm p q + pathSum (q :: rest) := rfl
    rw [h3]
    ring

theorem pathSum_reverse : ∀ l : List Point, pathSum l.reverse = -pathSum l
  | [] => by simp [pathSum]
  | [p] => by simp [pathSum]
  | p :: q :: rest => by
    have h1 : (p :: q :: rest).reverse = ((q :: rest).reverse) ++ [p] := by
      rw [List.reverse_cons]
    rcases hrev : (q :: rest).reverse with _ | ⟨r0, rrest⟩
    · exact absurd hrev (by simp)
    · have h2 : pathSum ((p :: q :: rest).reverse) =
          pathSum (r0 :: rrest) + crossTerm ((r0 :: rrest).getLastD r0) p := by
        rw [h1, hrev]
        exact pathSum_append_last rrest r0 p
      have h3 : pathSum (r0 :: rrest) = -pathSum (q :: rest) := by
        rw [← hrev]
        exact pathSum_reverse (q :: rest)
      have h4 : (r0 :: rrest).getLastD r0 = q := by
        rw [List.getLastD_eq_getLast?, ← hrev, List.getLast?_reverse]
        rfl
      have h5 : pathSum (p :: q :: rest) = crossTerm p q + pathSum (q :: rest) := rfl
      rw [h2, h3, h4, h5, crossTerm_anti p q]
      ring

theorem signedArea2D_nonempty (l : List Point) (p0 : Point) (h : l ≠ []) :
    signedArea2D l = (pathSum l + crossTerm (l.getLastD p0) (l.headD p0)) / 2 := by
  rcases l with _ | ⟨p, rest⟩
  · exact absurd rfl h
  · rw [signedArea2D]
    congr 2

theorem signedArea2D_reverse (l : List Point) : signedArea2D l.reverse = -signedArea2D l := by
  rcases hl : l with _ | ⟨p, rest⟩
  · simp [signedArea2D]
  · have hne : (p :: rest) ≠ [] := by simp
    have hne' : (p :: rest).reverse ≠ [] := by simp
    rw [signedArea2D_nonempty _ p hne', signedArea2D_nonempty _ p hne]
    rw [pathSum_reverse]
    rw [List.getLastD_eq_getLast?, List.getLast?_reverse,
      List.headD_eq_head?_getD, List.head?_reverse,
      List.getLastD_eq_getLast?, List.headD_eq_head?_getD]
    rw [crossTerm_anti]
    ring

theorem signedArea2D_zero_of_short (l : List Point) (h : l.length < 3) :
    signedArea2D l = 0 := by
  rcases l with _ | ⟨p, _ | ⟨q, _ | ⟨r, rest⟩⟩⟩
  · rfl
  · show (pathSum [p] + crossTerm ([p].getLastD p) p) / 2 = 0
    simp [pathSum, crossTerm_self]
  · show (pathSum [p, q] + crossTerm ([p, q].getLastD p) p) / 2 = 0
    have h1 : pathSum [p, q] = crossTerm p q := by
      show crossTerm p q + pathSum [q] = crossTerm p q
      simp [pathSum]
    have h2 : ([p, q] : List Point).getLastD p = q := rfl
    rw [h1, h2, crossTerm_anti]
    ring
  · simp only [List.length_cons] at h
    omega

theorem earClipRun_spec (rc : List Point) :
    (earClipRun rc).2.1.Sublist (List.range rc.length)
    ∧ (earClipRun rc).1.length + (earClipRun rc).2.1.length = rc.length
    ∧ (∀ t ∈ (earClipRun rc).1, goodTri rc.length t ∧ eps < triCross rc t)
    ∧ (3 ≤ rc.length → 3 ≤ (earClipRun rc).2.1.length)
    ∧ (earClipRun rc).2.2 ≤ rc.length * rc.length
    ∧ ((earClipRun rc).1 = [] → (earClipRun rc).2.1 = List.range rc.length)
    ∧ (rc.length ≤ 3 → earClipRun rc = ([], List.range rc.length, 0)) := by
  obtain ⟨hA, hB, hC, hD, hE, hF, hG⟩ :=
    earClipLoop_spec rc rc.length (rc.length * rc.length) (List.range rc.length) []
      (List.nodup_range _) (fun i hi => List.mem_range.mp hi)
  rw [List.length_range] at hB hD hG
  refine ⟨hA, by simpa using hB, ?_, hD, hE, hF, hG⟩
  intro t ht
  rcases hC t ht with hin | hgood
  · exact absurd hin (List.not_mem_nil t)
  · exact hgood

theorem triangulateCCW_good (rc : List Point) :
    ∀ t ∈ triangulateCCW rc, goodTri rc.length t := by
  obtain ⟨hA, hB, hC, hD, hE, hF, hG⟩ := earClipRun_spec rc
  intro t ht
  rw [triangulateCCW] at ht
  split_ifs at ht with hrem
  · rcases List.mem_append.mp ht with hin | hin
    · exact (hC t hin).1
    · have ht' : t = ((earClipRun rc).2.1.getD 0 0, (earClipRun rc).2.1.getD 1 0,
          (earClipRun rc).2.1.getD 2 0) := by simpa using hin
      subst ht'
      have hnd : (earClipRun rc).2.1.Nodup := hA.nodup (List.nodup_range _)
      have h0 : (0 : ℕ) < (earClipRun rc).2.1.length := by omega
      have h1 : (1 : ℕ) < (earClipRun rc).2.1.length := by omega
      have h2 : (2 : ℕ) < (earClipRun rc).2.1.length := by omega
      have hmem : ∀ {i : ℕ} (hi : i < (earClipRun rc).2.1.length),
          (earClipRun rc).2.1.getD i 0 < rc.length := by
        intro i hi
        exact List.mem_range.mp (hA.subset (getD_mem _ _ hi))
      have hinj : ∀ {i j : ℕ}, i < (earClipRun rc).2.1.length →
          j < (earClipRun rc).2.1.length → i ≠ j →
          (earClipRun rc).2.1.getD i 0 ≠ (earClipRun rc).2.1.getD j 0 := by
        intro i j hi hj hij he
        rw [getD_eq_getElem _ _ hi, getD_eq_getElem _ _ hj] at he
        exact hij ((List.Nodup.getElem_inj_iff hnd).mp he)
      exact ⟨hmem h0, hmem h1, hmem h2, hinj h0 h1 (by omega), hinj h0 h2 (by omega),
        hinj h1 h2 (by omega)⟩
  · exact (hC t ht).1

theorem triangulateCCW_count (rc : List Point) :
    (triangulateCCW rc).length ≤ rc.length - 2 := by
  obtain ⟨hA, hB, hC, hD, hE, hF, hG⟩ := earClipRun_spec rc
  rw [triangulateCCW]
  split_ifs with hrem
  · rw [List.length_append, List.length_singleton]
    omega
  · by_cases h3 : 3 ≤ rc.length
    · have := hD h3
      omega
    · have := hG (by omega)
      rw [this]
      simp

theorem triangulateCCW_nonempty_cases {rc : List Point} (h : triangulateCCW rc ≠ []) :
    (∃ t ∈ (earClipRun rc).1, goodTri rc.length t ∧ eps < triCross rc t)
      ∨ rc.length = 3 := by
  obtain ⟨hA, hB, hC, hD, hE, hF, hG⟩ := earClipRun_spec rc
  rw [triangulateCCW] at h
  split_ifs at h with hrem
  · by_cases hrun : (earClipRun rc).1 = []
    · right
      have := hF hrun
      rw [this, List.length_range] at hrem
      exact hrem
    · left
      obtain ⟨t, ht⟩ := List.exists_mem_of_ne_nil _ hrun
      exact ⟨t, ht, hC t ht⟩
  · left
    obtain ⟨t, ht⟩ := List.exists_mem_of_ne_nil _ h
    exact ⟨t, ht, hC t ht⟩

theorem triRing_normalize : normalizeRing triRing = triRing := by
  norm_num [normalizeRing, dropClosing, dedupeFrom, triRing, Prod.ext_iff]

theorem triRing_triangulation : triangulateEarClipping triRing = [(0, 1, 2)] := by
  rw [triangulateEarClipping, triRing_normalize]
  rw [if_neg (by norm_num [triRing]),
    if_neg (by norm_num [signedArea2D, pathSum, crossTerm, triRing])]
  have hr : List.range triRing.length = [0, 1, 2] := by
    norm_num [triRing, List.range_succ]
  norm_num [triangulateCCW, earClipRun, hr, earClipLoop, triRing]

theorem mem_dedupeFrom {x : Point} : ∀ {l : List Point} {a : Point},
    x ∈ dedupeFrom a l → x ∈ l := by
  intro l
  induction l with
  | nil => intro a h; simp [dedupeFrom] at h
  | cons p rest ih =>
    intro a h
    rw [dedupeFrom] at h
    split_ifs at h with hp
    · exact List.mem_cons_of_mem _ (ih h)
    · rcases List.mem_cons.mp h with rfl | h
      · exact List.mem_cons_self _ _
      · exact List.mem_cons_of_mem _ (ih h)

theorem dropClosing_subset {x : Point} {l : List Point} (h : x ∈ dropClosing l) : x ∈ l := by
  rw [dropClosing] at h
  split_ifs at h
  · exact (List.dropLast_sublist l).subset h
  · exact h

theorem mem_normalizeRing {x : Point} {l : List Point} (h : x ∈ normalizeRing l) : x ∈ l := by
  rw [normalizeRing] at h
  rcases hd : dropClosing l with _ | ⟨p, rest⟩
  · rw [hd] at h
    simp at h
  · rw [hd] at h
    rcases List.mem_cons.mp h with rfl | h
    · exact dropClosing_subset (hd ▸ List.mem_cons_self _ _)
    · exact dropClosing_subset (hd ▸ List.mem_cons_of_mem _ (mem_dedupeFrom h))

theorem dedupe_chain : ∀ (l : List Point) (a : Point),
    (a :: dedupeFrom a l).Chain' (· ≠ ·) := by
  intro l
  induction l with
  | nil => intro a; simp [dedupeFrom]
  | cons p rest ih =>
    intro a
    by_cases hp : p = a
    · rw [dedupeFrom, if_pos hp]
      exact ih a
    · rw [dedupeFrom, if_neg hp]
      rw [List.chain'_cons]
      exact ⟨fun h => hp h.symm, ih p⟩

theorem normalizeRing_chain (l : List Point) : (normalizeRing l).Chain' (· ≠ ·) := by
  rw [normalizeRing]
  rcases hd : dropClosing l with _ | ⟨p, rest⟩
  · simp
  · exact dedupe_chain rest p

theorem dedupeFrom_noop : ∀ {l : List Point} {p : Point},
    (p :: l).Chain' (· ≠ ·) → dedupeFrom p l = l := by
  intro l
  induction l with
  | nil => intro p _; rfl
  | cons q rest ih =>
    intro p h
    rw [List.chain'_cons] at h
    rw [dedupeFrom, if_neg (fun he => h.1 he.symm)]
    rw [ih h.2]

theorem chain'_dropLast {l : List Point} (h : l.Chain' (· ≠ ·)) :
    l.dropLast.Chain' (· ≠ ·) := by
  rw [List.dropLast_eq_take]
  exact h.take _

theorem normalizeRing_eq_dropClosing {l : List Point} (h : l.Chain' (· ≠ ·)) :
    normalizeRing l = dropClosing l := by
  have hch : (dropClosing l).Chain' (· ≠ ·) := by
    rw [dropClosing]
    split_ifs
    · exact chain'_dropLast h
    · exact h
  rw [normalizeRing]
  rcases hd : dropClosing l with _ | ⟨p, rest⟩
  · rfl
  · rw [hd] at hch
    show p :: dedupeFrom p rest = p :: rest
    rw [dedupeFrom_noop hch]

theorem nr_three_distinct {m : List Point} {a b c : Point} (hch : m.Chain' (· ≠ ·))
    (h : normalizeRing m = [a, b, c]) : a ≠ b ∧ b ≠ c ∧ a ≠ c := by
  rw [normalizeRing_eq_dropClosing hch, dropClosing] at h
  split_ifs at h with hcond
  · have hm : m ≠ [] := by
      intro he
      rw [he] at hcond
      simp at hcond
    have hdecomp : m.dropLast ++ [m.getLast hm] = m := List.dropLast_append_getLast hm
    rw [h] at hdecomp
    have hmx : m = [a, b, c, m.getLast hm] := hdecomp.symm
    have hax : m.getLast hm = a := by
      have h2 := hcond.2
      rw [hmx] at h2
      have h3 : (some a : Option Point) = some (m.getLast hm) := by
        simpa using h2
      exact (Option.some.inj h3).symm
    rw [hmx] at hch
    simp only [List.chain'_cons, List.chain'_singleton, and_true] at hch
    obtain ⟨hab, hbc, hcx⟩ := hch
    rw [hax] at hcx
    exact ⟨hab, hbc, fun he => hcx he.symm⟩
  · rw [h] at hch
    simp only [List.chain'_cons, List.chain'_singleton, and_true] at hch
    rw [h] at hcond
    push_neg at hcond
    have hac : (some a : Option Point) ≠ some c := by
      simpa using hcond (by simp)
    exact ⟨hch.1, hch.2, fun he => hac (by rw [he])⟩

theorem exists_three_of_good_cross {r rc : List Point}
    (hsub : ∀ x ∈ rc, x ∈ r) {t : Tri} (hgood : goodTri rc.length t)
    (hcross : eps < triCross rc t) :
    ∃ a b c : Point, a ∈ r ∧ b ∈ r ∧ c ∈ r ∧ a ≠ b ∧ a ≠ c ∧ b ≠ c := by
  have h0 : (0 : ℚ) < triCross rc t := lt_trans (by norm_num [eps]) hcross
  have hnz : cross (rc.getD t.1 ((0 : ℚ), (0 : ℚ))) (rc.getD t.2.1 ((0 : ℚ), (0 : ℚ)))
      (rc.getD t.2.2 ((0 : ℚ), (0 : ℚ))) ≠ 0 := ne_of_gt h0
  obtain ⟨h1, h2, h3⟩ := cross_ne_zero_distinct hnz
  exact ⟨_, _, _, hsub _ (getD_mem _ _ hgood.1), hsub _ (getD_mem _ _ hgood.2.1),
    hsub _ (getD_mem _ _ hgood.2.2.1), h1, h2, h3⟩

theorem triangulate_nonempty_exists_three {r : List Point} (hch : r.Chain' (· ≠ ·))
    (hne : triangulateEarClipping r ≠ []) :
    ∃ a b c : Point, a ∈ r ∧ b ∈ r ∧ c ∈ r ∧ a ≠ b ∧ a ≠ c ∧ b ≠ c := by
  rw [triangulateEarClipping] at hne
  split_ifs at hne with hlen harea
  · exact absurd rfl hne
  · have hccw : triangulateCCW (normalizeRing r).reverse ≠ [] := by
      intro h
      rw [h] at hne
      exact hne rfl
    rcases triangulateCCW_nonempty_cases hccw with ⟨t, _, hgood, hcross⟩ | h3
    · refine exists_three_of_good_cross ?_ hgood hcross
      intro x hx
      exact mem_normalizeRing (List.mem_reverse.mp hx)
    · rw [List.length_reverse] at h3
      obtain ⟨a, b, c, habc⟩ := List.length_eq_three.mp h3
      obtain ⟨hab, hbc, hac⟩ := nr_three_distinct hch habc
      refine ⟨a, b, c, ?_, ?_, ?_, hab, hac, hbc⟩ <;>
        exact mem_normalizeRing (by rw [habc]; simp)
  · rcases triangulateCCW_nonempty_cases hne with ⟨t, _, hgood, hcross⟩ | h3
    · exact exists_three_of_good_cross (fun x hx => mem_normalizeRing hx) hgood hcross
    · obtain ⟨a, b, c, habc⟩ := List.length_eq_three.mp h3
      obtain ⟨hab, hbc, hac⟩ := nr_three_distinct hch habc
      refine ⟨a, b, c, ?_, ?_, ?_, hab, hac, hbc⟩ <;>
        exact mem_normalizeRing (by rw [habc]; simp)

theorem shiftRing_chain (xOff yOff : ℚ) (poly : List Point) :
    (shiftRing xOff yOff poly).Chain' (· ≠ ·) := by
  rw [shiftRing, List.chain'_map]
  refine (normalizeRing_chain poly).imp ?_
  intro a b hab he
  apply hab
  have h1 : a.1 - xOff = b.1 - xOff := congrArg Prod.fst he
  have h2 : a.2 - yOff = b.2 - yOff := congrArg Prod.snd he
  have hx : a.1 = b.1 := by linarith
  have hy : a.2 = b.2 := by linarith
  exact Prod.ext hx hy

theorem three_le_card_toFinset {l : List Point} {a b c : Point}
    (ha : a ∈ l) (hb : b ∈ l) (hc : c ∈ l) (hab : a ≠ b) (hac : a ≠ c) (hbc : b ≠ c) :
    3 ≤ l.toFinset.card := by
  have hsub : ({a, b, c} : Finset Point) ⊆ l.toFinset := by
    intro x hx
    simp only [Finset.mem_insert, Finset.mem_singleton] at hx
    rcases hx with rfl | rfl | rfl <;> simpa [List.mem_toFinset]
  have hcard : ({a, b, c} : Finset Point).card = 3 := by
    rw [Finset.card_insert_of_not_mem (by simp [hab, hac]),
      Finset.card_insert_of_not_mem (by simp [hbc]), Finset.card_singleton]
  calc 3 = ({a, b, c} : Finset Point).card := hcard.symm
    _ ≤ l.toFinset.card := Finset.card_le_card hsub

theorem shiftRing_zero_triRing : shiftRing 0 0 triRing = triRing := by
  rw [shiftRing, triRing_normalize]
  norm_num [triRing, Prod.ext_iff]

/-- C2: after `rebuildRoomOverlays`, an overlay keyed by a room id
exists iff that room is in `metadata.rooms` with a polygon array whose
shifted normalized ring triangulates to at least one triangle; a room
whose overlay exists necessarily has at least 3 distinct points after
normalization, and rooms failing normalization or triangulation are
silently omitted (the build is a total function — no path raises an
error). -/
theorem c2_room_overlays (rooms : List (String × Option (List Point)))
    (xOff yOff zOff : ℚ) (roomId : String) :
    ((∃ ov, (roomId, ov) ∈ rebuildRoomOverlays rooms xOff yOff zOff) ↔
      ∃ poly, (roomId, some poly) ∈ rooms ∧
        triangulateEarClipping (shiftRing xOff yOff poly) ≠ [])
    ∧ (∀ poly, (roomId, some poly) ∈ rooms →
        triangulateEarClipping (shiftRing xOff yOff poly) ≠ [] →
        3 ≤ (normalizeRing poly).toFinset.card) := by
  constructor
  · constructor
    · rintro ⟨ov, hov⟩
      obtain ⟨e, he, hfe⟩ := List.mem_filterMap.mp hov
      rcases e with ⟨rid, _ | poly⟩
      · simp [buildRoomOverlay] at hfe
      · rw [buildRoomOverlay] at hfe
        dsimp only at hfe
        by_cases hemp : (triangulateEarClipping (shiftRing xOff yOff poly)).isEmpty
        · rw [if_pos hemp] at hfe
          exact Option.noConfusion hfe
        · rw [if_neg hemp] at hfe
          injection hfe with hfe'
          have hrid : rid = roomId := congrArg Prod.fst hfe'
          subst hrid
          exact ⟨poly, he, fun h => hemp (List.isEmpty_iff.mpr h)⟩
    · rintro ⟨poly, hmem, hne⟩
      refine ⟨Overlay.mk
          ((shiftRing xOff yOff poly).flatMap fun p => [p.1, p.2, 2 / 100 - zOff])
          ((triangulateEarClipping (shiftRing xOff yOff poly)).flatMap fun t =>
            [t.1, t.2.1, t.2.2]),
        List.mem_filterMap.mpr ⟨(roomId, some poly), hmem, ?_⟩⟩
      rw [buildRoomOverlay]
      dsimp only
      rw [if_neg (fun h => hne (List.isEmpty_iff.mp h))]
  · intro poly _ hne
    obtain ⟨a, b, c, ha, hb, hc, hab, hac, hbc⟩ :=
      triangulate_nonempty_exists_three (shiftRing_chain xOff yOff poly) hne
    rw [shiftRing] at ha hb hc
    obtain ⟨a', ha', rfl⟩ := List.mem_map.mp ha
    obtain ⟨b', hb', rfl⟩ := List.mem_map.mp hb
    obtain ⟨c', hc', rfl⟩ := List.mem_map.mp hc
    exact three_le_card_toFinset ha' hb' hc'
      (fun he => hab (by rw [he])) (fun he => hac (by rw [he]))
      (fun he => hbc (by rw [he]))

/-- C2 witness: a single room with the unit-triangle polygon produces a
triangulation and the polygon's normalization has 3 distinct points. -/
theorem c2_room_overlays_witness :
    (("roomA", some triRing) ∈ roomsEx)
    ∧ triangulateEarClipping (shiftRing 0 0 triRing) ≠ []
    ∧ 3 ≤ (normalizeRing triRing).toFinset.card :=
  ⟨by simp [roomsEx],
    by rw [shiftRing_zero_triRing, triRing_triangulation]; simp,
    (c2_room_overlays roomsEx 0 0 0 ("roomA")).2 triRing (by simp [roomsEx])
      (by rw [shiftRing_zero_triRing, triRing_triangulation]; simp)⟩

/-- C10: every index triple returned by `triangulateEarClipping` has
three pairwise-distinct indices, each in range of the normalized ring,
and the number of triangles is at most `n - 2`. -/
theorem c10_triangle_indices (pts : List Point) :
    (∀ t ∈ triangulateEarClipping pts, goodTri (normalizeRing pts).length t)
    ∧ (triangulateEarClipping pts).length ≤ (normalizeRing pts).length - 2 := by
  rw [triangulateEarClipping]
  split_ifs with hlen harea
  · simp
  · have hrl : (normalizeRing pts).reverse.length = (normalizeRing pts).length :=
      List.length_reverse _
    constructor
    · intro t ht
      obtain ⟨t', ht', rfl⟩ := List.mem_map.mp ht
      have hg := triangulateCCW_good _ t' ht'
      rw [hrl] at hg
      obtain ⟨ha, hb, hc, hab, hac, hbc⟩ := hg
      have hn : 0 < (normalizeRing pts).length := by omega
      refine ⟨?_, ?_, ?_, ?_, ?_, ?_⟩ <;> dsimp only <;> omega
    · rw [List.length_map]
      have := triangulateCCW_count (normalizeRing pts).reverse
      rw [hrl] at this
      exact this
  · exact ⟨triangulateCCW_good _, triangulateCCW_count _⟩

/-- C10 witness: the unit triangle triangulates to the single triple
`(0, 1, 2)`, which is well-formed for its 3-vertex normalized ring. -/
theorem c10_triangle_indices_witness :
    ((0, 1, 2) : Tri) ∈ triangulateEarClipping triRing
    ∧ goodTri (normalizeRing triRing).length ((0, 1, 2) : Tri) :=
  ⟨by
    rw [triRing_triangulation]
    exact List.mem_singleton.mpr rfl,
    (c10_triangle_indices triRing).1 (0, 1, 2) (by
      rw [triRing_triangulation]
      exact List.mem_singleton.mpr rfl)⟩

theorem getD_reverse {α : Type} (l : List α) (d : α) {i : ℕ} (h : i < l.length) :
    l.reverse.getD i d = l.getD (l.length - 1 - i) d := by
  have hi' : i < l.reverse.length := by simpa using h
  have hj : l.length - 1 - i < l.length := by omega
  rw [getD_eq_getElem _ _ hi', getD_eq_getElem _ _ hj]
  exact List.getElem_reverse hi'

/-- C4 (amended): whenever normalization commutes with reversal of the
input ring — in particular for every already-normalized ring whose last
point differs from its first — triangulating a clockwise-wound ring
yields exactly the same triangles, read as point triples in the
original normalized ordering, as triangulating its counter-clockwise
reversal: same triangle count, same covered area, and the returned index
triples are valid indices into the original (pre-reversal) normalized
ring. -/
theorem c4_winding_reversal_amended (r : List Point)
    (hcomm : normalizeRing r.reverse = (normalizeRing r).reverse)
    (hcw : signedArea2D (normalizeRing r) < 0) :
    (triangulateEarClipping r).length = (triangulateEarClipping r.reverse).length
    ∧ (triangulateEarClipping r).map (triPoints (normalizeRing r))
        = (triangulateEarClipping r.reverse).map (triPoints (normalizeRing r.reverse))
    ∧ coveredArea (normalizeRing r) (triangulateEarClipping r)
        = coveredArea (normalizeRing r.reverse) (triangulateEarClipping r.reverse)
    ∧ ∀ t ∈ triangulateEarClipping r, goodTri (normalizeRing r).length t := by
  have hlen3 : ¬ (normalizeRing r).length < 3 := by
    intro h
    rw [signedArea2D_zero_of_short _ h] at hcw
    exact absurd hcw (lt_irrefl 0)
  have hrevlen : (normalizeRing r).reverse.length = (normalizeRing r).length :=
    List.length_reverse _
  have htriL : triangulateEarClipping r = (triangulateCCW (normalizeRing r).reverse).map
      (fun t => ((normalizeRing r).length - 1 - t.1, (normalizeRing r).length - 1 - t.2.1,
        (normalizeRing r).length - 1 - t.2.2)) := by
    rw [triangulateEarClipping, if_neg hlen3, if_pos hcw]
  have htriR : triangulateEarClipping r.reverse = triangulateCCW (normalizeRing r).reverse := by
    rw [triangulateEarClipping, hcomm, if_neg (by rw [hrevlen]; exact hlen3),
      if_neg (by rw [signedArea2D_reverse]; push_neg; linarith)]
  have hmapeq : ∀ t ∈ triangulateCCW (normalizeRing r).reverse,
      triPoints (normalizeRing r) ((normalizeRing r).length - 1 - t.1,
        (normalizeRing r).length - 1 - t.2.1, (normalizeRing r).length - 1 - t.2.2)
        = triPoints (normalizeRing r).reverse t := by
    intro t ht
    have hg := triangulateCCW_good _ t ht
    rw [hrevlen] at hg
    obtain ⟨ha, hb, hc, _, _, _⟩ := hg
    unfold triPoints
    dsimp only
    rw [getD_reverse _ _ ha, getD_reverse _ _ hb, getD_reverse _ _ hc]
  have hb : (triangulateEarClipping r).map (triPoints (normalizeRing r))
      = (triangulateEarClipping r.reverse).map (triPoints (normalizeRing r.reverse)) := by
    rw [htriL, htriR, hcomm, List.map_map]
    exact List.map_congr_left hmapeq
  refine ⟨?_, hb, ?_, ?_⟩
  · have hlen := congrArg List.length hb
    simpa using hlen
  · rw [coveredArea, coveredArea, hb]
  · rw [htriL]
    intro t ht
    obtain ⟨t', ht', rfl⟩ := List.mem_map.mp ht
    have hg := triangulateCCW_good _ t' ht'
    rw [hrevlen] at hg
    obtain ⟨ha, hbb, hc, hab, hac, hbc⟩ := hg
    have hn : 0 < (normalizeRing r).length := by omega
    refine ⟨?_, ?_, ?_, ?_, ?_, ?_⟩ <;> dsimp only <;> omega

theorem cw5_norm : normalizeRing cw5 = [(0, 0), (0, 1), (1, 0), (0, 0)] := by
  norm_num [normalizeRing, dropClosing, dedupeFrom, cw5, Prod.ext_iff]

theorem cw5_area : signedArea2D (normalizeRing cw5) < 0 := by
  rw [cw5_norm]
  norm_num [signedArea2D, pathSum, crossTerm]

theorem cw5_ear0 : earAt cw5ccw [0, 1, 2, 3] 0 = none := by
  norm_num [earAt, cross, eps, cw5ccw]

theorem cw5_ear1 : earAt cw5ccw [0, 1, 2, 3] 1 = none := by
  norm_num [earAt, cross, eps, cw5ccw, isPointInTriangle, List.any_cons]

theorem cw5_ear2 : earAt cw5ccw [0, 1, 2, 3] 2 = none := by
  norm_num [earAt, cross, eps, cw5ccw, isPointInTriangle, List.any_cons]

theorem cw5_ear3 : earAt cw5ccw [0, 1, 2, 3] 3 = none := by
  norm_num [earAt, cross, eps, cw5ccw]

theorem cw5_run : earClipRun cw5ccw = ([], [0, 1, 2, 3], 1) := by
  have hr : List.range cw5ccw.length = [0, 1, 2, 3] := by decide
  simp only [earClipRun, hr]
  norm_num [earClipLoop, findEar, findEarIn, cw5_ear0, cw5_ear1, cw5_ear2, cw5_ear3]

theorem cw5_triangulation : triangulateEarClipping cw5 = [] := by
  have h1 : normalizeRing cw5 = [(0, 0), (0, 1), (1, 0), (0, 0)] := cw5_norm
  have hrev : ([((0 : ℚ), (0 : ℚ)), (0, 1), (1, 0), (0, 0)] : List Point).reverse = cw5ccw := by
    norm_num [cw5ccw]
  rw [triangulateEarClipping, h1]
  rw [if_neg (by norm_num), if_pos (by rw [← h1]; exact cw5_area), hrev]
  norm_num [triangulateCCW, cw5_run]

theorem cw5_reverse_triangulation : triangulateEarClipping cw5.reverse = [(0, 1, 2)] := by
  have h1 : normalizeRing cw5.reverse = [(0, 0), (1, 0), (0, 1)] := by
    norm_num [normalizeRing, dropClosing, dedupeFrom, cw5, Prod.ext_iff]
  rw [triangulateEarClipping, h1]
  rw [if_neg (by norm_num), if_neg (by norm_num [signedArea2D, pathSum, crossTerm])]
  have hr : List.range ([((0 : ℚ), (0 : ℚ)), (1, 0), (0, 1)] : List Point).length
      = [0, 1, 2] := by decide
  norm_num [triangulateCCW, earClipRun, hr, earClipLoop]

/-- C4 (counterexample): the ring `[(0,0),(0,1),(1,0),(0,0),(0,0)]` is
clockwise-wound (its normalization has signed area `-1/2`), yet
triangulating it yields no triangles while triangulating its
counter-clockwise reversal yields one triangle — normalization keeps a
trailing copy of the start point on one side only, so the claimed
count/area equality fails for general rings of 2D points. -/
theorem c4_winding_reversal_counterexample :
    signedArea2D (normalizeRing cw5) < 0
    ∧ 0 < signedArea2D (normalizeRing cw5.reverse)
    ∧ (triangulateEarClipping cw5).length = 0
    ∧ (triangulateEarClipping cw5.reverse).length = 1 := by
  refine ⟨cw5_area, ?_, ?_, ?_⟩
  · have h1 : normalizeRing cw5.reverse = [(0, 0), (1, 0), (0, 1)] := by
      norm_num [normalizeRing, dropClosing, dedupeFrom, cw5, Prod.ext_iff]
    rw [h1]
    norm_num [signedArea2D, pathSum, crossTerm]
  · rw [cw5_triangulation]
    rfl
  · rw [cw5_reverse_triangulation]
    rfl

/-- C4 witness: the clockwise quad `[[0,0],[0,3],[4,3],[4,0]]`, whose
normalization commutes with reversal. -/
theorem c4_winding_reversal_witness :
    normalizeRing cwQuad.reverse = (normalizeRing cwQuad).reverse
    ∧ signedArea2D (normalizeRing cwQuad) < 0
    ∧ ((triangulateEarClipping cwQuad).length
          = (triangulateEarClipping cwQuad.reverse).length
        ∧ (triangulateEarClipping cwQuad).map (triPoints (normalizeRing cwQuad))
            = (triangulateEarClipping cwQuad.reverse).map
                (triPoints (normalizeRing cwQuad.reverse))
        ∧ coveredArea (normalizeRing cwQuad) (triangulateEarClipping cwQuad)
            = coveredArea (normalizeRing cwQuad.reverse)
                (triangulateEarClipping cwQuad.reverse)
        ∧ ∀ t ∈ triangulateEarClipping cwQuad,
            goodTri (normalizeRing cwQuad).length t) :=
  ⟨by norm_num [normalizeRing, dropClosing, dedupeFrom, cwQuad, Prod.ext_iff],
    by
      have h1 : normalizeRing cwQuad = cwQuad := by
        norm_num [normalizeRing, dropClosing, dedupeFrom, cwQuad, Prod.ext_iff]
      rw [h1]
      norm_num [signedArea2D, pathSum, crossTerm, cwQuad],
    c4_winding_reversal_amended cwQuad
      (by norm_num [normalizeRing, dropClosing, dedupeFrom, cwQuad, Prod.ext_iff])
      (by
        have h1 : normalizeRing cwQuad = cwQuad := by
          norm_num [normalizeRing, dropClosing, dedupeFrom, cwQuad, Prod.ext_iff]
        rw [h1]
        norm_num [signedArea2D, pathSum, crossTerm, cwQuad])⟩

/-- C5: the ear-search `while` loop of `triangulateEarClipping` executes
at most `n * n` iterations for a normalized ring of `n` vertices — the
JS guard bound — so the triangulator terminates on every input (it is a
total function in this embedding) and returns the triangles accumulated
so far when the guard is exhausted or no ear is found. -/
theorem c5_termination_guard (pts : List Point) :
    earClipIterations pts ≤ (normalizeRing pts).length * (normalizeRing pts).length := by
  rw [earClipIterations]
  split_ifs with hlen harea
  · exact Nat.zero_le _
  · have h := (earClipRun_spec (normalizeRing pts).reverse).2.2.2.2.1
    rw [List.length_reverse] at h
    exact h
  · exact (earClipRun_spec (normalizeRing pts)).2.2.2.2.1

theorem mem_keepIds (sensors : List Sensor) (id : String) :
    id ∈ keepIds sensors ↔ ∃ s ∈ sensors, s.id = id ∧ id ≠ String.mk [] := by
  simp only [keepIds, List.mem_map, List.mem_filter]
  constructor
  · rintro ⟨s, ⟨hs, hne⟩, rfl⟩
    exact ⟨s, hs, rfl, by simpa using hne⟩
  · rintro ⟨s, hs, rfl, hne⟩
    exact ⟨s, ⟨hs, by simpa using hne⟩, rfl⟩

theorem exists_mem_sync_foldl (xo yo zo : ℚ) (sensors : List Sensor) :
    ∀ (m : List (String × Marker)) (id : String),
      (∃ w, (id, w) ∈ sensors.foldl (syncSensor xo yo zo) m) ↔
        (∃ w, (id, w) ∈ m) ∨
          ∃ s ∈ sensors, s.id = id ∧ id ≠ String.mk [] ∧ locationValid s = true := by
  induction sensors with
  | nil => simp
  | cons s rest ih =>
    intro m id
    rw [List.foldl_cons, ih]
    have hsplit : (∃ w, (id, w) ∈ syncSensor xo yo zo m s) ↔
        (∃ w, (id, w) ∈ m) ∨ (s.id = id ∧ id ≠ String.mk [] ∧ locationValid s = true) := by
      by_cases hid : s.id = String.mk []
      · rw [syncSensor, if_pos hid]
        constructor
        · exact Or.inl
        · rintro (h | ⟨rfl, hne, _⟩)
          · exact h
          · exact absurd hid hne
      · by_cases hloc : locationValid s = true
        · rw [syncSensor, if_neg hid, if_pos hloc, exists_mem_setKey]
          constructor
          · rintro (rfl | h)
            · exact Or.inr ⟨rfl, hid, hloc⟩
            · exact Or.inl h
          · rintro (h | ⟨rfl, _, _⟩)
            · exact Or.inr h
            · exact Or.inl rfl
        · rw [syncSensor, if_neg hid, if_neg hloc]
          constructor
          · exact Or.inl
          · rintro (h | ⟨rfl, _, hl⟩)
            · exact h
            · exact absurd hl hloc
    rw [hsplit]
    constructor
    · rintro ((h | hs) | ⟨s', hs', h'⟩)
      · exact Or.inl h
      · exact Or.inr ⟨s, List.mem_cons_self _ _, hs⟩
      · exact Or.inr ⟨s', List.mem_cons_of_mem _ hs', h'⟩
    · rintro (h | ⟨s', hs', h'⟩)
      · exact Or.inl (Or.inl h)
      · rcases List.mem_cons.mp hs' with rfl | hs'
        · exact Or.inl (Or.inr h')
        · exact Or.inr ⟨s', hs', h'⟩

/-- C1 (amended): when the sensors-visibility flag is false,
`updateSensors` returns before touching the marker table, leaving it
unchanged (not empty). When it is true, a marker exists for an id after
the call iff either a current sensor carries that (truthy) id with a
usable ≥2-component location, or a marker for that id already existed
and the id is still present in the sensor list (the `keep` set is
populated before the location check, so a sensor that lost its location
keeps its stale marker). In particular, starting from an empty marker
table with visibility true, the marker key set equals exactly the set
of visible-eligible sensor ids — for every sensor list including the
empty one. -/
theorem c1_marker_sync_amended (markers : List (String × Marker)) (sensors : List Sensor)
    (xOff yOff zOff : ℚ) (id : String) :
    updateSensors markers sensors false xOff yOff zOff = markers
    ∧ ((∃ w, (id, w) ∈ updateSensors markers sensors true xOff yOff zOff) ↔
        ((∃ s ∈ sensors, s.id = id ∧ id ≠ String.mk [] ∧ locationValid s = true)
          ∨ ((∃ w, (id, w) ∈ markers) ∧ ∃ s ∈ sensors, s.id = id ∧ id ≠ String.mk [])))
    ∧ (markers = [] →
        ((∃ w, (id, w) ∈ updateSensors markers sensors true xOff yOff zOff) ↔
          ∃ s ∈ sensors, s.id = id ∧ id ≠ String.mk [] ∧ locationValid s = true)) := by
  have hmain : (∃ w, (id, w) ∈ updateSensors markers sensors true xOff yOff zOff) ↔
      ((∃ s ∈ sensors, s.id = id ∧ id ≠ String.mk [] ∧ locationValid s = true)
        ∨ ((∃ w, (id, w) ∈ markers) ∧ ∃ s ∈ sensors, s.id = id ∧ id ≠ String.mk [])) := by
    have hstep : ∀ w : Marker,
        (id, w) ∈ updateSensors markers sensors true xOff yOff zOff ↔
          ((id, w) ∈ sensors.foldl (syncSensor xOff yOff zOff) markers ∧
            id ∈ keepIds sensors) := by
      intro w
      simp [updateSensors, List.mem_filter]
    rw [exists_congr hstep, exists_and_right, exists_mem_sync_foldl, mem_keepIds]
    constructor
    · rintro ⟨hmem | helig, hkeep⟩
      · exact Or.inr ⟨hmem, hkeep⟩
      · exact Or.inl helig
    · rintro (helig | ⟨hmem, hpres⟩)
      · refine ⟨Or.inr helig, ?_⟩
        obtain ⟨s, hs, hsid, hne, _⟩ := helig
        exact ⟨s, hs, hsid, hne⟩
      · exact ⟨Or.inl hmem, hpres⟩
  refine ⟨by simp [updateSensors], hmain, ?_⟩
  rintro rfl
  rw [hmain]
  simp

/-- C1 (counterexample): start from a marker table holding a marker for
sensor `s1` and sync against a sensor list in which `s1` is present but
has no location; the sensors-visibility flag is true. The claim demands
that no marker exist afterwards (no sensor has a ≥2-component location),
but the marker for `s1` survives, because `keep.add(sensor.id)` runs
before the location check. -/
theorem c1_marker_sync_counterexample :
    (∃ w, (("s1" : String), w) ∈ updateSensors markersS1 [sensorNoLoc] true 0 0 0)
    ∧ locationValid sensorNoLoc = false
    ∧ sensorNoLoc.id = "s1" := by
  refine ⟨?_, rfl, rfl⟩
  refine ⟨{ pos := (1, 8 / 100, 2), color := 0x22c55e }, ?_⟩
  simp [updateSensors, syncSensor, keepIds, locationValid, markersS1, sensorNoLoc, String.mk]

/-- C1 witness: from an empty marker table with visibility true, the
marker key set is exactly the eligible id set. -/
theorem c1_marker_sync_witness :
    ([] : List (String × Marker)) = []
    ∧ ((∃ w, (("s1" : String), w) ∈ updateSensors [] [sensorLoc] true 0 0 0) ↔
        ∃ s ∈ [sensorLoc], s.id = "s1" ∧ ("s1" : String) ≠ String.mk []
          ∧ locationValid s = true) :=
  ⟨rfl, (c1_marker_sync_amended [] [sensorLoc] 0 0 0 ("s1")).2.2 rfl⟩

/-- C9 (amended): when the bounding box is non-finite (`none`),
`fitCameraToModel` leaves the camera state — position and orbit target —
unchanged; otherwise it sets the orbit target to the box center and the
camera position to `center + dist * (1, 0.7, 1)` with
`dist = max(2.5, maxDimension * 1.5)`, so the camera sits along the
fixed diagonal direction `(1, 0.7, 1)` at squared euclidean distance
`2.49 * dist²` (not `dist²`) from the target. -/
theorem c9_camera_framing_amended (cam : CameraState) (b : BoxQ) :
    fitCameraToModel none cam = cam
    ∧ (fitCameraToModel (some b) cam).target = boxCenter b
    ∧ (fitCameraToModel (some b) cam).pos =
        { x := (boxCenter b).x + boxDist b, y := (boxCenter b).y + boxDist b * (7 / 10),
          z := (boxCenter b).z + boxDist b }
    ∧ sqDist (fitCameraToModel (some b) cam).pos (fitCameraToModel (some b) cam).target
        = 249 / 100 * boxDist b ^ 2 := by
  refine ⟨rfl, rfl, rfl, ?_⟩
  simp only [fitCameraToModel, sqDist]
  ring

/-- C9 (counterexample): for the degenerate all-zero box, the camera is
placed at squared distance `2.49 * 2.5² = 15.5625` from the target, not
at distance `max(2.5, maxDim * 1.5) = 2.5` from it (squared `6.25`), so
the claimed "distance max(2.5, maxDimension × 1.5) from the center" is
false. -/
theorem c9_camera_framing_counterexample :
    boxDist boxZero = 5 / 2
    ∧ sqDist (fitCameraToModel (some boxZero) camZero).pos
        (fitCameraToModel (some boxZero) camZero).target ≠ (5 / 2) ^ 2 := by
  constructor
  · norm_num [boxDist, boxMaxDim, boxSize, boxZero]
  · norm_num [fitCameraToModel, sqDist, boxCenter, boxDist, boxMaxDim, boxSize, boxZero, camZero]

/-- C8: after a sensor-list change, `recomputeAlertRooms` yields exactly
the room ids (nonempty, as all real room ids are) having at least one
member sensor with `is_alert` true; on the spec's example pair of
sensors the alert set is exactly `{'r1'}`. -/
theorem c8_alert_rooms :
    (∀ (sensors : List Sensor) (rid : String), rid ≠ String.mk [] →
      (rid ∈ recomputeAlertRooms sensors ↔
        ∃ s ∈ sensors, s.is_alert = true ∧ s.room_id = some rid))
    ∧ recomputeAlertRooms [sensorS1, sensorS2] = ["r1"] := by
  constructor
  · intro sensors rid hrid
    rw [recomputeAlertRooms, mem_alertRooms_foldl]
    simp only [List.not_mem_nil, false_or]
    constructor
    · rintro ⟨s, hs, hal, hr, _⟩
      exact ⟨s, hs, hal, hr⟩
    · rintro ⟨s, hs, hal, hr⟩
      exact ⟨s, hs, hal, hr, hrid⟩
  · simp [recomputeAlertRooms, alertStep, sensorS1, sensorS2, String.mk]

/-- C8 witness at the spec's example input. -/
theorem c8_alert_rooms_witness :
    ("r1" : String) ≠ String.mk []
    ∧ (("r1" : String) ∈ recomputeAlertRooms [sensorS1, sensorS2] ↔
        ∃ s ∈ [sensorS1, sensorS2], s.is_alert = true ∧ s.room_id = some ("r1")) :=
  ⟨by simp [String.mk], c8_alert_rooms.1 [sensorS1, sensorS2] ("r1") (by simp [String.mk])⟩

/-- C6 (amended): the marker color rule of `sensorColor` — the warning
color `0xff4d4d` for every alert sensor regardless of type; otherwise
the lowercased type string is matched in order against the keywords
`pir` (the motion category), `door`, `smoke` and `temp` (covering
`temperature`), each mapping to a distinct color, with the distinct
default `0x22c55e` when no keyword matches. -/
theorem c6_sensor_color_amended (s : Sensor) :
    (s.is_alert = true → sensorColor s = 0xff4d4d)
    ∧ (s.is_alert = false → jsIncludes (typeLower s) kwPir = true →
        sensorColor s = 0x60a5fa)
    ∧ (s.is_alert = false → jsIncludes (typeLower s) kwPir = false →
        jsIncludes (typeLower s) kwDoor = true → sensorColor s = 0xfbbf24)
    ∧ (s.is_alert = false → jsIncludes (typeLower s) kwPir = false →
        jsIncludes (typeLower s) kwDoor = false →
        jsIncludes (typeLower s) kwSmoke = true → sensorColor s = 0xa78bfa)
    ∧ (s.is_alert = false → jsIncludes (typeLower s) kwPir = false →
        jsIncludes (typeLower s) kwDoor = false →
        jsIncludes (typeLower s) kwSmoke = false →
        jsIncludes (typeLower s) kwTemp = true → sensorColor s = 0x22d3ee)
    ∧ (s.is_alert = false → jsIncludes (typeLower s) kwPir = false →
        jsIncludes (typeLower s) kwDoor = false →
        jsIncludes (typeLower s) kwSmoke = false →
        jsIncludes (typeLower s) kwTemp = false → sensorColor s = 0x22c55e)
    ∧ ([0xff4d4d, 0x60a5fa, 0xfbbf24, 0xa78bfa, 0x22d3ee, 0x22c55e] : List ℕ).Nodup := by
  refine ⟨?_, ?_, ?_, ?_, ?_, ?_, by decide⟩ <;>
    intros <;> simp_all [sensorColor]

/-- C6 (counterexample): a non-alert sensor whose type is literally
`motion` does not match the code's keyword set (which tests `pir`, not
`motion`) and falls through to the default color `0x22c55e`, the same
color as a sensor with no type at all — so the claimed category keyword
`motion` does not map to a distinct color. -/
theorem c6_sensor_color_counterexample :
    sensorColor sensorMotion = 0x22c55e
    ∧ sensorColor sensorBlank = 0x22c55e
    ∧ jsIncludes (typeLower sensorMotion) ("motion") = true
    ∧ sensorMotion.is_alert = false := by
  refine ⟨?_, ?_, ?_, rfl⟩ <;> decide

/-- C6 witness: an alert sensor gets the warning color. -/
theorem c6_sensor_color_witness :
    sensorFull.is_alert = true ∧ sensorColor sensorFull = 0xff4d4d :=
  ⟨rfl, (c6_sensor_color_amended sensorFull).1 rfl⟩

/-- C3 (amended): applying a sensor-update event to an existing record
merges field-by-field — `type`, `status` (from `new_status`),
`location`, `room_id` and `room_name` take the event's value when
specified and retain the previous value when left undefined — but
`is_alert` is unconditionally replaced by `Boolean(update.is_alert)`
(so an event omitting `is_alert` resets it to `false` rather than
retaining it). -/
theorem c3_sensor_update_amended (sensors : List (String × Sensor)) (u : SensorUpdate)
    (rec : Sensor) (hid : u.sensor_id ≠ String.mk [])
    (hrec : getKey u.sensor_id sensors = some rec) :
    getKey u.sensor_id (applySensorUpdate sensors u) = some
      { id := u.sensor_id
        type := jsOr u.type rec.type
        status := jsOr u.new_status rec.status
        is_alert := u.is_alert.getD false
        location := jsOr u.location rec.location
        room_id := jsOr u.room_id rec.room_id
        room_name := jsOr u.room_name rec.room_name } := by
  rw [applySensorUpdate, if_neg hid]
  simp only [hrec, Option.getD_some]
  exact getKey_setKey_self _ _ sensors

/-- C3 (counterexample): an update event carrying only `sensor_id`
(with `is_alert` left undefined) resets the stored record's `is_alert`
from `true` to `false` instead of retaining it, refuting the claim that
every unspecified field keeps its previous value. -/
theorem c3_sensor_update_counterexample :
    (getKey ("s1") (applySensorUpdate [("s1", sensorFull)] updateEmpty)).map Sensor.is_alert
      = some false
    ∧ sensorFull.is_alert = true
    ∧ updateEmpty.is_alert = none := by
  refine ⟨?_, rfl, rfl⟩
  rw [show applySensorUpdate [("s1", sensorFull)] updateEmpty
      = setKey ("s1")
          { id := updateEmpty.sensor_id
            type := jsOr updateEmpty.type sensorFull.type
            status := jsOr updateEmpty.new_status sensorFull.status
            is_alert := updateEmpty.is_alert.getD false
            location := jsOr updateEmpty.location sensorFull.location
            room_id := jsOr updateEmpty.room_id sensorFull.room_id
            room_name := jsOr updateEmpty.room_name sensorFull.room_name }
          [("s1", sensorFull)] from by
    rw [applySensorUpdate, if_neg (by simp [updateEmpty, String.mk])]
    simp [updateEmpty, getKey]]
  rw [getKey_setKey_self]
  simp [updateEmpty, jsOr]

/-- C3 witness: the amended merge at a concrete stored record and a
concrete empty patch. -/
theorem c3_sensor_update_witness :
    updateEmpty.sensor_id ≠ String.mk []
    ∧ getKey updateEmpty.sensor_id [("s1", sensorFull)] = some sensorFull
    ∧ getKey updateEmpty.sensor_id
        (applySensorUpdate [("s1", sensorFull)] updateEmpty) = some
      { id := updateEmpty.sensor_id
        type := jsOr updateEmpty.type sensorFull.type
        status := jsOr updateEmpty.new_status sensorFull.status
        is_alert := updateEmpty.is_alert.getD false
        location := jsOr updateEmpty.location sensorFull.location
        room_id := jsOr updateEmpty.room_id sensorFull.room_id
        room_name := jsOr updateEmpty.room_name sensorFull.room_name } :=
  ⟨by simp [updateEmpty, String.mk],
    by simp [updateEmpty, getKey],
    c3_sensor_update_amended [("s1", sensorFull)] updateEmpty sensorFull
      (by simp [updateEmpty, String.mk]) (by simp [updateEmpty, getKey])⟩

/-- C7: on every animation tick the overlay table keeps exactly its
keys (meshes stay resident); an overlay whose room is in the alert set
gets the warning color `0xff4d4d` and opacity `0.18 + pulse * 0.45`
(alert wins over selection); otherwise the selected room gets the
steady distinct highlight `0x60a5fa` at opacity `0.22`; every other
overlay is driven to opacity `0` with its color untouched. The pulse
`(sin(t * 7) + 1) / 2` keeps the alert opacity inside `[0.18, 0.63]`
and is periodic with period `2π/7 ≈ 0.898` seconds, within `0.01` of
`0.9`. -/
theorem c7_overlay_animation (overlays : List (String × OverlayMat))
    (alertRooms : List String) (selected : String) (pulse : ℚ)
    (roomId : String) (m : OverlayMat) :
    ((updateRoomOverlayAnimation overlays alertRooms selected pulse).map Prod.fst
      = overlays.map Prod.fst)
    ∧ (roomId ∈ alertRooms →
        animateOverlay alertRooms selected pulse roomId m
          = { color := 0xff4d4d, opacity := 18 / 100 + pulse * (45 / 100) })
    ∧ (roomId ∉ alertRooms → selected ≠ String.mk [] → roomId = selected →
        animateOverlay alertRooms selected pulse roomId m
          = { color := 0x60a5fa, opacity := 22 / 100 })
    ∧ (roomId ∉ alertRooms → ¬(selected ≠ String.mk [] ∧ roomId = selected) →
        (animateOverlay alertRooms selected pulse roomId m).opacity = 0
        ∧ (animateOverlay alertRooms selected pulse roomId m).color = m.color)
    ∧ (∀ t : ℝ, 18 / 100 ≤ alertOpacityAt t ∧ alertOpacityAt t ≤ 63 / 100
        ∧ alertOpacityAt (t + 2 * Real.pi / 7) = alertOpacityAt t)
    ∧ (|2 * Real.pi / 7 - 9 / 10| < 1 / 100) := by
  refine ⟨?_, ?_, ?_, ?_, ?_, ?_⟩
  · simp [updateRoomOverlayAnimation]
  · intro h
    simp [animateOverlay, h]
  · intro h1 h2 h3
    subst h3
    simp [animateOverlay, h1, h2]
  · intro h1 h2
    simp [animateOverlay, h1, h2]
  · intro t
    have hs1 : Real.sin (t * 7) ≤ 1 := Real.sin_le_one _
    have hs2 : -1 ≤ Real.sin (t * 7) := Real.neg_one_le_sin _
    refine ⟨?_, ?_, ?_⟩
    · unfold alertOpacityAt pulseAt
      nlinarith
    · unfold alertOpacityAt pulseAt
      nlinarith
    · unfold alertOpacityAt pulseAt
      have harg : (t + 2 * Real.pi / 7) * 7 = t * 7 + 2 * Real.pi := by ring
      rw [harg, Real.sin_add_two_pi]
  · have hlo : (3.141592 : ℝ) < Real.pi := Real.pi_gt_d6
    have hhi : Real.pi < 3.15 := Real.pi_lt_d2
    rw [abs_lt]
    constructor <;> nlinarith

/-- C7 witness: the alert branch evaluated at a concrete overlay and
pulse sample. -/
theorem c7_overlay_animation_witness :
    (("r1" : String) ∈ ["r1"])
    ∧ animateOverlay ["r1"] (String.mk []) (1 / 2) ("r1") overlayMat0
        = { color := 0xff4d4d, opacity := 18 / 100 + (1 / 2) * (45 / 100) } :=
  ⟨by simp,
    (c7_overlay_animation [("r1", overlayMat0)] ["r1"] (String.mk []) (1 / 2)
      ("r1") overlayMat0).2.1 (by simp)⟩

end DigitalTwin
